import Mathlib

/-!
Shallow embedding of the ArduinoCLI serial command-line interface
(src/ArduinoCLI.cpp, src/ArduinoCLI.h): the tokenizer backed by
strtok_r, the command resolver with exact and abbreviated matching, the
line dispatcher with argument-count validation, the per-byte character
state machine driven by poll, and the tab-completion engine.  Machine
strings are modelled as lists of characters; the fixed-size line buffer
is a list of its full capacity, indexed writes use List.set.  Serial
output and handler invocations are modelled as a trace of events.
-/

/-- The NUL terminator character used by the C string routines. -/
def nulChar : Char := Char.ofNat 0

/-- Membership in the strtok_r delimiter set " \t\r\n\a"
(space, tab, CR, LF, bell), from ArduinoCLI.cpp line 214. -/
def isDelimC (c : Char) : Bool :=
  c.toNat = 32 || c.toNat = 9 || c.toNat = 13 || c.toNat = 10 || c.toNat = 7

/-- C isspace in the default locale: space and the characters 9..13. -/
def isSpaceC (c : Char) : Bool :=
  c.toNat = 32 || (9 ≤ c.toNat && c.toNat ≤ 13)

/-- C isprint in the default locale: the characters 0x20..0x7E. -/
def isPrintC (c : Char) : Bool :=
  32 ≤ c.toNat && c.toNat ≤ 126

/-- CLI_Command_t from ArduinoCLI.h: command name, handler function
pointer (modelled by the flag hasFunc telling whether func is non-null),
maximum number of user arguments, help text. -/
structure CLICommand where
  name : String
  hasFunc : Bool
  maxArgs : Int
  helpText : String
  deriving DecidableEq

/-- strncmp(tok, name, strlen tok) == 0: tok is a leading substring of
name.  Both C strings are modelled as character lists. -/
def strStarts : List Char → List Char → Bool
  | [], _ => true
  | _ :: _, [] => false
  | a :: as, b :: bs => a = b && strStarts as bs

/-- One left-to-right scan over the line producing the strtok_r token
sequence: acc holds the reversed characters of the token currently
being read, a delimiter closes the pending token, end of line flushes
it.  The result is the maximal non-empty runs of non-delimiter
characters, exactly the successive strtok_r return values. -/
def tokenizeAux : List Char → List Char → List (List Char)
  | [], acc => if acc = [] then [] else [acc.reverse]
  | c :: rest, acc =>
    if isDelimC c then
      if acc = [] then tokenizeAux rest []
      else acc.reverse :: tokenizeAux rest []
    else tokenizeAux rest (c :: acc)

/-- The full sequence of tokens produced by repeated strtok_r calls on
the line. -/
def tokenize (line : List Char) : List (List Char) :=
  tokenizeAux line []

/-- _splitLine (ArduinoCLI.cpp lines 209-221): stores strtok_r tokens
into argv while argc < max_args_local - 1, so it keeps the first
max_args_local - 1 tokens and leaves the rest of the line unparsed. -/
def splitLine (line : List Char) (maxArgsLocal : Nat) : List (List Char) :=
  (tokenize line).take (maxArgsLocal - 1)

/-- The loop body of _findCommand (ArduinoCLI.cpp lines 233-247):
found is the first prefix match, exact the most recent exact match,
count the number of prefix matches. -/
def findLoop (tok : List Char) (cmds : List CLICommand)
    (found exact : Option CLICommand) (count : Nat) :
    Option CLICommand × Option CLICommand × Nat :=
  match cmds with
  | [] => (found, exact, count)
  | c :: rest =>
    let exact2 := if tok = c.name.toList then some c else exact
    if strStarts tok c.name.toList then
      findLoop tok rest
        (match found with
         | some f => some f
         | none => some c) exact2 (count + 1)
    else
      findLoop tok rest found exact2 count

/-- _findCommand (ArduinoCLI.cpp lines 225-260): empty token fails;
an exact match wins; otherwise a unique prefix match is returned;
otherwise resolution fails. -/
def findCommand (cmds : List CLICommand) (tok : List Char) :
    Option CLICommand :=
  if tok = [] then none
  else
    match findLoop tok cmds none none 0 with
    | (found, exact, count) =>
      match exact with
      | some e => some e
      | none => if count = 1 then found else none

/-- The sublist of command-table entries whose name starts with tok. -/
def prefMatches (tok : List Char) (cmds : List CLICommand) :
    List CLICommand :=
  cmds.filter (fun c => strStarts tok c.name.toList)

/-- The last table entry whose name is exactly tok, folded in table
order starting from init, mirroring the repeated exact_match overwrite
in the _findCommand loop. -/
def exactFold (tok : List Char) (cmds : List CLICommand)
    (init : Option CLICommand) : Option CLICommand :=
  cmds.foldl (fun acc c => if tok = c.name.toList then some c else acc) init

/-- Observable events of a run: serial output and handler invocations.
Ev.print models _serial.print and the two halves of println, Ev.echo
models _printChar, Ev.bell the write of the bell character, Ev.prompt a
_printPrompt call, Ev.dispatch a processInput call on a completed line,
and Ev.handlerCall an invocation of a command handler. -/
inductive Ev where
  | print (s : String)
  | echo (c : Char)
  | bell
  | prompt
  | dispatch (line : String)
  | handlerCall (name : String) (argc : Nat) (argv : List String)
  deriving DecidableEq

/-- The CR LF pair appended by Arduino println. -/
def crlf : String := "\r\n"

/-- The ambiguous-command diagnostic (ArduinoCLI.cpp lines 292-296). -/
def ambiguousEvs (tok : String) : List Ev :=
  [Ev.print crlf, Ev.print "Error: Ambiguous command '", Ev.print tok,
   Ev.print "'.", Ev.print crlf]

/-- The unknown-command diagnostic (ArduinoCLI.cpp lines 292, 297-301). -/
def unknownEvs (tok : String) : List Ev :=
  [Ev.print crlf, Ev.print "Error: Unknown command '", Ev.print tok,
   Ev.print "'. Type 'help' for list.", Ev.print crlf]

/-- The too-many-arguments diagnostic (ArduinoCLI.cpp lines 309-316). -/
def tooManyEvs (cmd : CLICommand) (userArgs : Int) : List Ev :=
  [Ev.print crlf, Ev.print "Error: Too many arguments for '",
   Ev.print cmd.name, Ev.print "' (max: ", Ev.print (toString cmd.maxArgs),
   Ev.print ", got: ", Ev.print (toString userArgs), Ev.print ").",
   Ev.print crlf]

/-- Handler execution (ArduinoCLI.cpp lines 321-325): when func is not
null, a blank line then the call cmd->func(this, argc, argv). -/
def invokeEvs (cmd : CLICommand) (argc : Nat) (argv : List String) :
    List Ev :=
  if cmd.hasFunc then [Ev.print crlf, Ev.handlerCall cmd.name argc argv]
  else []

/-- The dispatcher state (the private fields of class ArduinoCLI).
The line buffer _lineBuffer is modelled as the list storage of its full
capacity _maxLineLen; allocated tells whether both malloc calls of
_allocateBuffers succeeded (on failure both pointers are freed
together, so one flag models both). -/
structure CLIState where
  isRunning : Bool
  allocated : Bool
  storage : List Char
  maxLineLen : Nat
  bufferPos : Nat
  commands : List CLICommand
  maxArgs : Nat
  deriving DecidableEq

/-- _parseAndExecute (ArduinoCLI.cpp lines 263-326).  The in-place
strtok writes touch only the caller-supplied line array, so only the
event trace is produced here.  A line is a NUL-free character list (the
C entry points receive NUL-terminated strings). -/
def parseAndExecute (s : CLIState) (line : List Char) : List Ev :=
  if !s.allocated then []
  else
    let line1 := line.dropWhile (fun c => isSpaceC c)
    if line1 = [] then []
    else
      match splitLine line1 s.maxArgs with
      | [] => []
      | a0 :: restA =>
        match findCommand s.commands a0 with
        | none =>
          if 1 < (prefMatches a0 s.commands).length then
            ambiguousEvs (String.mk a0)
          else unknownEvs (String.mk a0)
        | some cmd =>
          let userArgs : Int := (Int.ofNat (restA.length + 1)) - 1
          if cmd.maxArgs < userArgs then tooManyEvs cmd userArgs
          else
            invokeEvs cmd (restA.length + 1)
              ((a0 :: restA).map (fun t => String.mk t))

/-- processInput (ArduinoCLI.cpp lines 200-203): guarded by the running
flag and both allocations.  _parseAndExecute mutates only the
caller-supplied line array, never the fields of the object, so the
state component is returned unchanged. -/
def processInput (s : CLIState) (line : List Char) : CLIState × List Ev :=
  if !s.isRunning || !s.allocated then (s, [])
  else (s, parseAndExecute s line)

/-- _resetBuffer (ArduinoCLI.cpp lines 97-102). -/
def resetBuffer (s : CLIState) : CLIState :=
  if s.allocated then
    { s with storage := s.storage.set 0 nulChar, bufferPos := 0 }
  else { s with bufferPos := 0 }

/-- strncpy(storage + start, src, src.length): write the characters of
src into storage from index start on. -/
def writeChars (storage : List Char) (start : Nat) : List Char → List Char
  | [] => storage
  | c :: cs => writeChars (storage.set start c) (start + 1) cs

/-- Length of the longest common leading run of two C strings. -/
def lcp2 : List Char → List Char → Nat
  | a :: as, b :: bs => if a = b then lcp2 as bs + 1 else 0
  | _, _ => 0

/-- _findLcp (ArduinoCLI.cpp lines 331-352): zero for an empty array,
the full length for a single string, and otherwise the position where
the first string ends or some other string stops agreeing with it,
which is the minimum pairwise common-prefix length against the first
string. -/
def findLcp (ms : List String) : Nat :=
  match ms with
  | [] => 0
  | [m] => m.length
  | m :: rest => rest.foldl (fun n x => min n (lcp2 m.toList x.toList)) m.length

/-- The match-collection loop of _handleTab (ArduinoCLI.cpp lines
372-383): names of the table entries that start with the current word,
in table order.  The in-loop capacity guard can never fire because at
most _commandCount entries match. -/
def tabMatches (cmds : List CLICommand) (word : List Char) : List String :=
  (cmds.filter (fun c => strStarts word c.name.toList)).map (fun c => c.name)

/-- current_word in _handleTab (ArduinoCLI.cpp lines 359-361): the
strncpy copy of the first bufferPos buffer bytes, read as a C string
(so up to the first NUL). -/
def tabWord (s : CLIState) : List Char :=
  (s.storage.take s.bufferPos).takeWhile (fun ch => ch != nulChar)

/-- _handleTab (ArduinoCLI.cpp lines 355-437). -/
def handleTab (s : CLIState) : CLIState × List Ev :=
  if !s.allocated then (s, [])
  else
    let word := tabWord s
    if word.contains ' ' then (s, [Ev.bell])
    else if word.length = 0 then (s, [])
    else
      match tabMatches s.commands word with
      | [] => (s, [Ev.bell])
      | [completion] =>
        let remainingLen := completion.length - word.length
        if s.bufferPos + remainingLen < s.maxLineLen - 2 then
          ({ s with
              storage :=
                ((writeChars s.storage s.bufferPos
                    (completion.toList.drop word.length)).set
                  (s.bufferPos + remainingLen) ' ').set
                  (s.bufferPos + remainingLen + 1) nulChar,
              bufferPos := s.bufferPos + remainingLen + 1 },
           [Ev.print (String.mk (completion.toList.drop word.length)),
            Ev.print " "])
        else (s, [Ev.bell])
      | m0 :: m1 :: restM =>
        let lcpLen := findLcp (m0 :: m1 :: restM)
        if word.length < lcpLen then
          let remainingLen := lcpLen - word.length
          if s.bufferPos + remainingLen < s.maxLineLen - 1 then
            ({ s with
                storage := (writeChars s.storage s.bufferPos
                    ((m0.toList.drop word.length).take remainingLen)).set
                  (s.bufferPos + remainingLen) nulChar,
                bufferPos := s.bufferPos + remainingLen },
             [Ev.print
                (String.mk ((m0.toList.drop word.length).take remainingLen))])
          else (s, [Ev.bell])
        else
          (s, [Ev.print crlf] ++
            ((m0 :: m1 :: restM).map
              (fun n => [Ev.print n, Ev.print "  "])).flatten ++
            [Ev.prompt,
             Ev.print (String.mk
               (s.storage.takeWhile (fun ch => ch != nulChar)))])

/-- The line-terminator handling of poll (ArduinoCLI.cpp lines
146-155): dispatch a non-empty buffer as a completed line, reset the
buffer, and reprint the prompt while still running. -/
def handleTerm (s : CLIState) : CLIState × List Ev :=
  let step :=
    if 0 < s.bufferPos then
      let sA := { s with storage := s.storage.set s.bufferPos nulChar }
      let line := sA.storage.takeWhile (fun ch => ch != nulChar)
      (sA, Ev.dispatch (String.mk line) :: (processInput sA line).2)
    else (s, ([] : List Ev))
  let s2 := resetBuffer step.1
  (s2, step.2 ++ (if s2.isRunning then [Ev.prompt] else []))

/-- The backspace and delete handling of poll (lines 170-177). -/
def handleBackspace (s : CLIState) : CLIState × List Ev :=
  if 0 < s.bufferPos then
    ({ s with
        bufferPos := s.bufferPos - 1,
        storage := s.storage.set (s.bufferPos - 1) nulChar },
     [Ev.print "\x08 \x08"])
  else (s, [])

/-- The Ctrl-C handling of poll (lines 179-183). -/
def handleCancel (s : CLIState) : CLIState × List Ev :=
  (resetBuffer s, [Ev.print "^C", Ev.print crlf, Ev.prompt])

/-- The printable-byte handling of poll (lines 185-193). -/
def handlePrintable (s : CLIState) (c : Char) : CLIState × List Ev :=
  if s.bufferPos < s.maxLineLen - 1 then
    ({ s with
        storage := (s.storage.set s.bufferPos c).set (s.bufferPos + 1)
          nulChar,
        bufferPos := s.bufferPos + 1 },
     [Ev.echo c])
  else (s, [Ev.bell])

/-- The CRLF and LFCR normalization of poll (lines 157-162): after a
terminator c, peek at the next available byte and consume it when it is
the paired terminator. -/
def pairSkip (c : Char) (rest : List Char) : List Char :=
  match rest with
  | [] => []
  | n :: rest2 =>
    if (c.toNat = 13 && n.toNat = 10) || (c.toNat = 10 && n.toNat = 13)
    then rest2
    else n :: rest2

/-- One iteration per byte of the draining while loop of poll
(ArduinoCLI.cpp lines 142-196), one branch per byte class; '\r' is 13,
'\n' 10, '\t' 9, DEL 127, '\b' 8 and Ctrl-C 3.  Bytes that fall
through every test are ignored.  fuel bounds the number of iterations;
every iteration consumes at least one byte, so with fuel at least the
number of available bytes the loop never stops early (lemma
pollLoop_fuel_irrel below). -/
def pollLoop : Nat → CLIState → List Char → CLIState × List Ev
  | 0, s, _ => (s, [])
  | _ + 1, s, [] => (s, [])
  | fuel + 1, s, c :: rest =>
    if c.toNat = 13 || c.toNat = 10 then
      let p := handleTerm s
      let r := pollLoop fuel p.1 (pairSkip c rest)
      (r.1, p.2 ++ r.2)
    else if c.toNat = 9 then
      let p := handleTab s
      let r := pollLoop fuel p.1 rest
      (r.1, p.2 ++ r.2)
    else if c.toNat = 127 || c.toNat = 8 then
      let p := handleBackspace s
      let r := pollLoop fuel p.1 rest
      (r.1, p.2 ++ r.2)
    else if c.toNat = 3 then
      let p := handleCancel s
      let r := pollLoop fuel p.1 rest
      (r.1, p.2 ++ r.2)
    else if isPrintC c then
      let p := handlePrintable s c
      let r := pollLoop fuel p.1 rest
      (r.1, p.2 ++ r.2)
    else pollLoop fuel s rest

/-- The draining while loop of poll applied to the currently available
bytes. -/
def pollGo (s : CLIState) (input : List Char) : CLIState × List Ev :=
  pollLoop input.length s input

/-- poll (ArduinoCLI.cpp lines 139-197): a pure no-op that consumes no
bytes when the session is stopped or allocation failed, otherwise a
drain of every available byte.  The third component is the part of the
stream left unread. -/
def poll (s : CLIState) (input : List Char) :
    CLIState × List Ev × List Char :=
  if !s.isRunning || !s.allocated then (s, [], input)
  else
    match pollGo s input with
    | (s2, evs) => (s2, evs, [])

/-- start (ArduinoCLI.cpp lines 116-120). -/
def start (s : CLIState) : CLIState × List Ev :=
  ({ s with isRunning := true }, [Ev.prompt])

/-- stop (ArduinoCLI.cpp lines 123-125). -/
def stop (s : CLIState) : CLIState :=
  { s with isRunning := false }

/-- The line-buffer invariant of the spec data model: the allocated
buffer has its configured capacity, the cursor stays strictly below it,
and the byte at the cursor is the NUL terminator.  Vacuous when
allocation failed. -/
abbrev BufInv (s : CLIState) : Prop :=
  s.allocated = true →
    s.storage.length = s.maxLineLen ∧ s.bufferPos < s.maxLineLen ∧
      s.storage[s.bufferPos]? = some nulChar

/-- Number of line dispatches in a trace. -/
def countDispatch (evs : List Ev) : Nat :=
  evs.countP (fun e => match e with | Ev.dispatch _ => true | _ => false)

/-- Number of handler invocations in a trace. -/
def countHandler (evs : List Ev) : Nat :=
  evs.countP
    (fun e => match e with | Ev.handlerCall _ _ _ => true | _ => false)

/-- The buffer state right after a completed line inside poll: the
terminator write at bufferPos followed by _resetBuffer. -/
def lineReset (s : CLIState) : CLIState :=
  resetBuffer { s with storage := s.storage.set s.bufferPos nulChar }

/-- Claim-side room predicate for tab completion, following the words
of the spec: the buffer has room for the completion suffix, one
trailing separator and the NUL terminator exactly when
bufferPos + suffixLen + 2 <= capacity. -/
abbrev tabRoomSpec (bufferPos suffixLen maxLineLen : Nat) : Prop :=
  bufferPos + suffixLen + 2 ≤ maxLineLen

/-- Demo table entries for the concrete witnesses below. -/
def cmdHelp : CLICommand :=
  { name := "help", hasFunc := true, maxArgs := 0, helpText := "help" }

def cmdHalt : CLICommand :=
  { name := "halt", hasFunc := true, maxArgs := 0, helpText := "halt" }

def cmdSet : CLICommand :=
  { name := "set", hasFunc := true, maxArgs := 2, helpText := "set" }

def cmdRead : CLICommand :=
  { name := "read", hasFunc := true, maxArgs := 1, helpText := "read" }

def demoTable : List CLICommand := [cmdHelp, cmdHalt, cmdSet]

/-- A stopped but allocated session. -/
def stStopped : CLIState :=
  { isRunning := false
    allocated := true
    storage := List.replicate 64 nulChar
    maxLineLen := 64
    bufferPos := 0
    commands := demoTable
    maxArgs := 9 }

/-- A running session whose buffer holds the two characters hi. -/
def stLine : CLIState :=
  { isRunning := true
    allocated := true
    storage := 'h' :: 'i' :: List.replicate 62 nulChar
    maxLineLen := 64
    bufferPos := 2
    commands := demoTable
    maxArgs := 9 }

/-- A running session with capacity 6 whose buffer holds rea and whose
table holds the single command read. -/
def stTab : CLIState :=
  { isRunning := true
    allocated := true
    storage := 'r' :: 'e' :: 'a' :: List.replicate 3 nulChar
    maxLineLen := 6
    bufferPos := 3
    commands := [cmdRead]
    maxArgs := 9 }

/-- The same buffer and table with capacity 8. -/
def stTabOk : CLIState :=
  { stTab with
      maxLineLen := 8
      storage := 'r' :: 'e' :: 'a' :: List.replicate 5 nulChar }

/-- A running session whose buffer is full: capacity 64, cursor at
63. -/
def stFull : CLIState :=
  { stLine with bufferPos := 63 }

lemma prefMatches_cons_pos (tok : List Char) (c : CLICommand)
    (rest : List CLICommand) (h : strStarts tok c.name.toList = true) :
    prefMatches tok (c :: rest) = c :: prefMatches tok rest := by
  have h2 : strStarts tok c.name.data = true := h
  simp [prefMatches, List.filter_cons, h2]

lemma prefMatches_cons_neg (tok : List Char) (c : CLICommand)
    (rest : List CLICommand) (h : ¬strStarts tok c.name.toList = true) :
    prefMatches tok (c :: rest) = prefMatches tok rest := by
  have h2 : strStarts tok c.name.data = false := by simpa using h
  simp [prefMatches, List.filter_cons, h2]

lemma findLoop_spec (tok : List Char) (cmds : List CLICommand)
    (found exact : Option CLICommand) (count : Nat) :
    findLoop tok cmds found exact count =
      ((match found with
        | some f => some f
        | none => (prefMatches tok cmds).head?),
       exactFold tok cmds exact,
       count + (prefMatches tok cmds).length) := by
  induction cmds generalizing found exact count with
  | nil =>
    cases found <;> simp [findLoop, prefMatches, exactFold]
  | cons c rest ih =>
    simp only [findLoop]
    by_cases hs : strStarts tok c.name.toList
    · rw [if_pos hs, ih, prefMatches_cons_pos tok c rest hs]
      cases found with
      | none =>
        simp only [List.head?_cons, List.length_cons, exactFold,
          List.foldl_cons, Prod.mk.injEq]
        refine ⟨trivial, trivial, by omega⟩
      | some f =>
        simp only [List.length_cons, exactFold, List.foldl_cons,
          Prod.mk.injEq]
        refine ⟨trivial, trivial, by omega⟩
    · rw [if_neg hs, ih, prefMatches_cons_neg tok c rest hs]
      cases found <;>
        simp only [exactFold, List.foldl_cons, Prod.mk.injEq]

lemma exactFold_of_not_mem (tok : List Char) (cmds : List CLICommand)
    (init : Option CLICommand) (h : ∀ c ∈ cmds, c.name.toList ≠ tok) :
    exactFold tok cmds init = init := by
  induction cmds generalizing init with
  | nil => simp [exactFold]
  | cons c rest ih =>
    have hc : tok ≠ c.name.toList := fun he => h c (by simp) he.symm
    simp only [exactFold, List.foldl_cons, if_neg hc]
    exact ih init (fun x hx => h x (by simp [hx]))

lemma exactFold_mem (tok : List Char) (cmds : List CLICommand)
    (init : Option CLICommand)
    (h : (∃ c ∈ cmds, c.name.toList = tok) ∨
         (∃ x, init = some x ∧ x.name.toList = tok)) :
    ∃ e, exactFold tok cmds init = some e ∧ e.name.toList = tok := by
  induction cmds generalizing init with
  | nil =>
    rcases h with ⟨c, hc, _⟩ | ⟨x, hx, hxn⟩
    · exact absurd hc (List.not_mem_nil c)
    · exact ⟨x, by simp [exactFold, hx], hxn⟩
  | cons c rest ih =>
    simp only [exactFold, List.foldl_cons]
    by_cases hc : tok = c.name.toList
    · rw [if_pos hc]
      exact ih (some c) (Or.inr ⟨c, rfl, hc.symm⟩)
    · rw [if_neg hc]
      apply ih init
      rcases h with ⟨d, hd, hdn⟩ | hr
      · rcases List.mem_cons.mp hd with rfl | hd2
        · exact absurd hdn.symm hc
        · exact Or.inl ⟨d, hd2, hdn⟩
      · exact Or.inr hr

lemma findCommand_characterization (cmds : List CLICommand)
    (tok : List Char) (h : tok ≠ []) :
    findCommand cmds tok =
      match exactFold tok cmds none with
      | some e => some e
      | none =>
        if (prefMatches tok cmds).length = 1 then
          (prefMatches tok cmds).head?
        else none := by
  simp only [findCommand, if_neg h, findLoop_spec, Nat.zero_add]

lemma pairSkip_length_le (c : Char) (rest : List Char) :
    (pairSkip c rest).length ≤ rest.length := by
  cases rest with
  | nil => simp [pairSkip]
  | cons n rest2 =>
    by_cases h :
        ((c.toNat = 13 && n.toNat = 10) || (c.toNat = 10 && n.toNat = 13))
          = true
    · simp [pairSkip, h]
    · simp [pairSkip, h]

lemma pollLoop_nil (fuel : Nat) (s : CLIState) :
    pollLoop fuel s [] = (s, []) := by
  cases fuel <;> rfl

lemma pollLoop_fuel_irrel (fuel1 : Nat) :
    ∀ (fuel2 : Nat) (s : CLIState) (input : List Char),
      input.length ≤ fuel1 → input.length ≤ fuel2 →
      pollLoop fuel1 s input = pollLoop fuel2 s input := by
  induction fuel1 with
  | zero =>
    intro fuel2 s input h1 h2
    have he : input = [] := by
      cases input with
      | nil => rfl
      | cons c rest => simp at h1
    subst he
    rw [pollLoop_nil, pollLoop_nil]
  | succ n ih =>
    intro fuel2 s input h1 h2
    cases input with
    | nil => rw [pollLoop_nil, pollLoop_nil]
    | cons c rest =>
      cases fuel2 with
      | zero => simp at h2
      | succ m =>
        have hr1 : rest.length ≤ n := by
          simp only [List.length_cons] at h1; omega
        have hr2 : rest.length ≤ m := by
          simp only [List.length_cons] at h2; omega
        have hp1 : (pairSkip c rest).length ≤ n :=
          Nat.le_trans (pairSkip_length_le c rest) hr1
        have hp2 : (pairSkip c rest).length ≤ m :=
          Nat.le_trans (pairSkip_length_le c rest) hr2
        simp only [pollLoop]
        rw [ih m (handleTerm s).1 (pairSkip c rest) hp1 hp2,
          ih m (handleTab s).1 rest hr1 hr2,
          ih m (handleBackspace s).1 rest hr1 hr2,
          ih m (handleCancel s).1 rest hr1 hr2,
          ih m (handlePrintable s c).1 rest hr1 hr2,
          ih m s rest hr1 hr2]

lemma tokenizeAux_ne_nil (line : List Char) :
    ∀ acc, ∀ t ∈ tokenizeAux line acc, t ≠ [] := by
  induction line with
  | nil =>
    intro acc t ht
    by_cases h : acc = []
    · simp [tokenizeAux, h] at ht
    · simp only [tokenizeAux, if_neg h, List.mem_singleton] at ht
      subst ht
      simpa using h
  | cons c rest ih =>
    intro acc t ht
    simp only [tokenizeAux] at ht
    by_cases hd : isDelimC c
    · rw [if_pos hd] at ht
      by_cases h : acc = []
      · rw [if_pos h] at ht
        exact ih [] t ht
      · rw [if_neg h] at ht
        rcases List.mem_cons.mp ht with rfl | h2
        · simpa using h
        · exact ih [] t h2
    · rw [if_neg hd] at ht
      exact ih (c :: acc) t ht

lemma tokenizeAux_all_delim (line : List Char)
    (h : ∀ c ∈ line, isDelimC c = true) : tokenizeAux line [] = [] := by
  induction line with
  | nil => rfl
  | cons c rest ih =>
    have hd : isDelimC c = true := h c (by simp)
    simp only [tokenizeAux, hd, if_true, if_pos rfl]
    exact ih (fun x hx => h x (by simp [hx]))

lemma parseAndExecute_eq (s : CLIState) (line : List Char)
    (a0 : List Char) (restA : List (List Char))
    (hAlloc : s.allocated = true)
    (hArgv : splitLine (line.dropWhile (fun c => isSpaceC c)) s.maxArgs
      = a0 :: restA) :
    parseAndExecute s line =
      match findCommand s.commands a0 with
      | none =>
        if 1 < (prefMatches a0 s.commands).length then
          ambiguousEvs (String.mk a0)
        else unknownEvs (String.mk a0)
      | some cmd =>
        if cmd.maxArgs < (Int.ofNat (restA.length + 1)) - 1 then
          tooManyEvs cmd ((Int.ofNat (restA.length + 1)) - 1)
        else
          invokeEvs cmd (restA.length + 1)
            ((a0 :: restA).map (fun t => String.mk t)) := by
  have hne : ¬(line.dropWhile (fun c => isSpaceC c) = []) := by
    intro h0
    rw [h0] at hArgv
    simp [splitLine, tokenize, tokenizeAux] at hArgv
  simp only [parseAndExecute, hAlloc, Bool.not_true, Bool.false_eq_true,
    if_false, hne, hArgv]

lemma countDispatch_nil : countDispatch [] = 0 := rfl

lemma countDispatch_append (l1 l2 : List Ev) :
    countDispatch (l1 ++ l2) = countDispatch l1 + countDispatch l2 := by
  simp [countDispatch, List.countP_append]

lemma countDispatch_cons_dispatch (str : String) (l : List Ev) :
    countDispatch (Ev.dispatch str :: l) = countDispatch l + 1 := by
  simp [countDispatch, List.countP_cons]

lemma countDispatch_parseAndExecute (s : CLIState) (line : List Char) :
    countDispatch (parseAndExecute s line) = 0 := by
  simp only [parseAndExecute]
  split
  · rfl
  · split
    · rfl
    · split
      · rfl
      · split
        · split
          · simp [ambiguousEvs, countDispatch]
          · simp [unknownEvs, countDispatch]
        · split
          · simp [tooManyEvs, countDispatch]
          · simp only [invokeEvs]
            split
            · simp [countDispatch]
            · rfl

lemma countDispatch_processInput (s : CLIState) (line : List Char) :
    countDispatch (processInput s line).2 = 0 := by
  simp only [processInput]
  split
  · rfl
  · simpa using countDispatch_parseAndExecute s line

lemma countDispatch_promptIte (b : Bool) :
    countDispatch (if b = true then [Ev.prompt] else []) = 0 := by
  by_cases h : b = true <;> simp [h, countDispatch]

lemma handleTerm_fst (s : CLIState) (hPos : 0 < s.bufferPos) :
    (handleTerm s).1 = lineReset s := by
  simp [handleTerm, lineReset, hPos]

lemma countDispatch_handleTerm (s : CLIState) (hPos : 0 < s.bufferPos) :
    countDispatch (handleTerm s).2 = 1 := by
  simp only [handleTerm, if_pos hPos]
  rw [countDispatch_append, countDispatch_cons_dispatch,
    countDispatch_processInput, countDispatch_promptIte]

lemma writeChars_length (cs : List Char) :
    ∀ (st : List Char) (start : Nat),
      (writeChars st start cs).length = st.length := by
  induction cs with
  | nil => intro st start; rfl
  | cons c rest ih =>
    intro st start
    rw [writeChars, ih, List.length_set]

lemma resetBuffer_allocated (s : CLIState) :
    (resetBuffer s).allocated = s.allocated := by
  by_cases h : s.allocated = true <;> simp [resetBuffer, h]

lemma bufInv_resetBuffer (s : CLIState) (h : BufInv s) :
    BufInv (resetBuffer s) := by
  intro hAlloc
  rw [resetBuffer_allocated] at hAlloc
  obtain ⟨hlen, hpos, _⟩ := h hAlloc
  simp only [resetBuffer, if_pos hAlloc]
  refine ⟨by simp [List.length_set, hlen], by omega, ?_⟩
  exact List.getElem?_set_self (by rw [hlen]; omega)

lemma bufInv_handlePrintable (s : CLIState) (c : Char) (h : BufInv s) :
    BufInv (handlePrintable s c).1 := by
  simp only [handlePrintable]
  split
  next hlt =>
    intro hAlloc
    obtain ⟨hlen, hpos, _⟩ := h hAlloc
    dsimp only
    refine ⟨by simp [List.length_set, hlen], by omega, ?_⟩
    exact List.getElem?_set_self (by simp [List.length_set, hlen]; omega)
  next hlt => exact h

lemma bufInv_handleBackspace (s : CLIState) (h : BufInv s) :
    BufInv (handleBackspace s).1 := by
  simp only [handleBackspace]
  split
  next hpos =>
    intro hAlloc
    obtain ⟨hlen, hlt, _⟩ := h hAlloc
    dsimp only
    refine ⟨by simp [List.length_set, hlen], by omega, ?_⟩
    exact List.getElem?_set_self (by rw [hlen]; omega)
  next hpos => exact h

lemma bufInv_handleCancel (s : CLIState) (h : BufInv s) :
    BufInv (handleCancel s).1 :=
  bufInv_resetBuffer s h

lemma bufInv_handleTerm (s : CLIState) (h : BufInv s) :
    BufInv (handleTerm s).1 := by
  by_cases hpos : 0 < s.bufferPos
  · have he : (handleTerm s).1 =
        resetBuffer { s with storage := s.storage.set s.bufferPos nulChar }
        := by
      simp [handleTerm, hpos]
    rw [he]
    apply bufInv_resetBuffer
    intro hAlloc
    obtain ⟨hlen, hlt, _⟩ := h hAlloc
    exact ⟨by simp [List.length_set, hlen], hlt,
      List.getElem?_set_self (by rw [hlen]; omega)⟩
  · have he : (handleTerm s).1 = resetBuffer s := by
      simp [handleTerm, hpos]
    rw [he]
    exact bufInv_resetBuffer s h

lemma bufInv_handleTab (s : CLIState) (h : BufInv s) :
    BufInv (handleTab s).1 := by
  simp only [handleTab]
  split
  · exact h
  next hg =>
    split
    · exact h
    · split
      · exact h
      · split
        · exact h
        next completion heq =>
          split
          next hroom =>
            intro hAlloc
            obtain ⟨hlen, hlt, _⟩ := h hAlloc
            dsimp only
            refine ⟨?_, by omega, ?_⟩
            · simp [List.length_set, writeChars_length, hlen]
            · apply List.getElem?_set_self
              simp only [List.length_set, writeChars_length, hlen]
              omega
          next hroom => exact h
        next m0 m1 restM =>
          split
          · split
            next hroom =>
              intro hAlloc
              obtain ⟨hlen, hlt, _⟩ := h hAlloc
              dsimp only
              refine ⟨?_, by omega, ?_⟩
              · simp [List.length_set, writeChars_length, hlen]
              · apply List.getElem?_set_self
                simp only [List.length_set, writeChars_length, hlen]
                omega
            next hroom => exact h
          · exact h

lemma bufInv_pollLoop (fuel : Nat) :
    ∀ (s : CLIState) (input : List Char), BufInv s →
      BufInv (pollLoop fuel s input).1 := by
  induction fuel with
  | zero => intro s input h; exact h
  | succ n ih =>
    intro s input h
    cases input with
    | nil => exact h
    | cons c rest =>
      simp only [pollLoop]
      split
      · exact ih _ _ (bufInv_handleTerm s h)
      · split
        · exact ih _ _ (bufInv_handleTab s h)
        · split
          · exact ih _ _ (bufInv_handleBackspace s h)
          · split
            · exact ih _ _ (bufInv_handleCancel s h)
            · split
              · exact ih _ _ (bufInv_handlePrintable s c h)
              · exact ih _ _ h

lemma bufInv_poll (s : CLIState) (input : List Char) (h : BufInv s) :
    BufInv (poll s input).1 := by
  simp only [poll]
  split
  · exact h
  · rcases hE : pollGo s input with ⟨s2, evs⟩
    simp only [hE]
    have h2 : BufInv (pollGo s input).1 :=
      bufInv_pollLoop input.length s input h
    rw [hE] at h2
    exact h2

/-- C1: resolution of a non-empty token against the command table
returns an entry whose name equals the token whenever one exists,
regardless of how many other entries have the token as a prefix;
without an exact match it returns the unique prefix match when exactly
one entry starts with the token; without an exact match and with zero
or two-or-more prefix matches it fails; and the empty token always
fails, never matching by prefix. -/
theorem C1_resolution (cmds : List CLICommand) (t : List Char) :
    findCommand cmds [] = none
    ∧ (t ≠ [] → (∃ c ∈ cmds, c.name.toList = t) →
        ∃ r, findCommand cmds t = some r ∧ r.name.toList = t)
    ∧ (t ≠ [] → (∀ c ∈ cmds, c.name.toList ≠ t) →
        ∀ c, prefMatches t cmds = [c] → findCommand cmds t = some c)
    ∧ (t ≠ [] → (∀ c ∈ cmds, c.name.toList ≠ t) →
        (prefMatches t cmds).length ≠ 1 → findCommand cmds t = none) := by
  refine ⟨by simp [findCommand], ?_, ?_, ?_⟩
  · intro ht hex
    rcases exactFold_mem t cmds none (Or.inl hex) with ⟨e, he, hname⟩
    refine ⟨e, ?_, hname⟩
    rw [findCommand_characterization cmds t ht, he]
  · intro ht hnone c hf
    rw [findCommand_characterization cmds t ht,
      exactFold_of_not_mem t cmds none hnone, hf]
    simp
  · intro ht hnone hlen
    rw [findCommand_characterization cmds t ht,
      exactFold_of_not_mem t cmds none hnone]
    simp [hlen]

/-- Witness for C1: in the table help, halt, set the unique prefix he
resolves to the help entry. -/
theorem C1_resolution_witness :
    findCommand demoTable "he".toList = some cmdHelp :=
  (C1_resolution demoTable "he".toList).2.2.1 (by decide) (by decide)
    cmdHelp (by decide)

/-- C3 counterexample: with maxArgs configured to 2 via setMaxArgs (so
the field _maxArgs is 3 and the argv vector holds 3 entries), the
tokenizer applied to the three-word line a b c accepts 2 tokens, so it
does not stop accepting tokens once argc equals maxArgs - 1 = 1 as the
claim states. -/
theorem C3_counterexample :
    ¬((splitLine ('a' :: ' ' :: 'b' :: ' ' :: 'c' :: []) (2 + 1)).length
      ≤ 2 - 1) := by decide

/-- C3 amended: with configured maxArgs m (the stored field _maxArgs is
m + 1) the tokenizer stops accepting tokens once argc reaches m, one
later than the claim says: the kept tokens are exactly the first m of
the full token sequence, argc never exceeds the configured m, and the
cap is reached exactly whenever the line holds at least m tokens. -/
theorem C3_truncation (line : List Char) (m : Nat) :
    splitLine line (m + 1) = (tokenize line).take m
    ∧ (splitLine line (m + 1)).length ≤ m
    ∧ (m ≤ (tokenize line).length → (splitLine line (m + 1)).length = m) := by
  refine ⟨by simp [splitLine], ?_, ?_⟩
  · simp [splitLine, List.length_take]
  · intro h
    simp only [splitLine, Nat.add_sub_cancel, List.length_take]
    omega

/-- Witness for C3: the three-word line a b c tokenized with configured
maxArgs 2 yields exactly 2 tokens. -/
theorem C3_truncation_witness :
    (splitLine ('a' :: ' ' :: 'b' :: ' ' :: 'c' :: []) (2 + 1)).length
      = 2 :=
  (C3_truncation ('a' :: ' ' :: 'b' :: ' ' :: 'c' :: []) 2).2.2 (by decide)

/-- C6: tokenizing splits on the fixed delimiter set space, tab, CR,
LF, bell and produces only non-empty tokens; the line with leading,
repeated and trailing delimiters "  set  x 1 " yields exactly the
tokens set, x, 1 with argc 3 under the default configuration; and a
delimiters-only line yields no tokens. -/
theorem C6_tokenizer (line : List Char) (m : Nat) :
    (∀ t ∈ splitLine line m, t ≠ [])
    ∧ splitLine "  set  x 1 ".toList (8 + 1) =
        ["set".toList, "x".toList, "1".toList]
    ∧ (splitLine "  set  x 1 ".toList (8 + 1)).length = 3
    ∧ ((∀ c ∈ line, isDelimC c = true) → splitLine line m = []) := by
  refine ⟨?_, by decide, by decide, ?_⟩
  · intro t ht
    exact tokenizeAux_ne_nil line [] t (List.mem_of_mem_take ht)
  · intro h
    simp [splitLine, tokenize, tokenizeAux_all_delim line h]

/-- Witness for C6: a line of one space and one tab tokenizes to
nothing. -/
theorem C6_tokenizer_witness : splitLine (' ' :: '\t' :: []) 9 = [] :=
  (C6_tokenizer (' ' :: '\t' :: []) 9).2.2.2 (by decide)

/-- C2: for a dispatched line whose first token resolves to a command
descriptor, with userArgs = tokenCount - 1: if userArgs exceeds the
descriptor maxArgs, the trace is a too-many-arguments diagnostic that
names the command, its configured max and the actual count, and the
handler is not invoked; if userArgs is at most maxArgs (and the
descriptor carries a handler), the handler is invoked exactly once with
the token count and the tokens. -/
theorem C2_argCountValidation (s : CLIState) (line : List Char)
    (a0 : List Char) (restA : List (List Char)) (cmd : CLICommand)
    (hAlloc : s.allocated = true)
    (hArgv : splitLine (line.dropWhile (fun c => isSpaceC c)) s.maxArgs
      = a0 :: restA)
    (hFind : findCommand s.commands a0 = some cmd) :
    ((cmd.maxArgs < (restA.length : Int) →
        countHandler (parseAndExecute s line) = 0
        ∧ Ev.print cmd.name ∈ parseAndExecute s line
        ∧ Ev.print (toString cmd.maxArgs) ∈ parseAndExecute s line
        ∧ Ev.print (toString ((restA.length : Nat) : Int)) ∈
            parseAndExecute s line)
     ∧ ((restA.length : Int) ≤ cmd.maxArgs → cmd.hasFunc = true →
        parseAndExecute s line =
          [Ev.print crlf,
           Ev.handlerCall cmd.name (restA.length + 1)
             ((a0 :: restA).map (fun t => String.mk t))])) := by
  have hP := parseAndExecute_eq s line a0 restA hAlloc hArgv
  rw [hFind] at hP
  dsimp only at hP
  have hua : (Int.ofNat (restA.length + 1)) - 1 = ((restA.length : Nat) : Int)
      := by
    simp [Int.ofNat_succ]
  constructor
  · intro hgt
    rw [hua] at hP
    rw [if_pos hgt] at hP
    rw [hP]
    refine ⟨by simp [tooManyEvs, countHandler, List.countP_cons], ?_, ?_, ?_⟩
    · simp [tooManyEvs]
    · simp [tooManyEvs]
    · simp [tooManyEvs]
  · intro hle hfun
    rw [hua] at hP
    rw [if_neg (by omega)] at hP
    rw [hP]
    simp [invokeEvs, hfun]

/-- Witness for C2: the command set with maxArgs 2 invoked with 3 user
tokens produces no handler call and a diagnostic naming set, 2 and 3;
invoked with exactly 2 user tokens its handler runs once. -/
theorem C2_argCountValidation_witness :
    (countHandler (parseAndExecute stLine
        ('s' :: 'e' :: 't' :: ' ' :: 'a' :: ' ' :: 'b' :: ' ' :: 'c' :: []))
      = 0
     ∧ Ev.print "set" ∈ parseAndExecute stLine
        ('s' :: 'e' :: 't' :: ' ' :: 'a' :: ' ' :: 'b' :: ' ' :: 'c' :: []))
    ∧ parseAndExecute stLine
        ('s' :: 'e' :: 't' :: ' ' :: 'a' :: ' ' :: 'b' :: []) =
      [Ev.print crlf, Ev.handlerCall "set" 3 ["set", "a", "b"]] := by
  constructor
  · have h := (C2_argCountValidation stLine
      ('s' :: 'e' :: 't' :: ' ' :: 'a' :: ' ' :: 'b' :: ' ' :: 'c' :: [])
      ("set".toList) ["a".toList, "b".toList, "c".toList] cmdSet
      rfl (by decide) (by decide)).1 (by decide)
    exact ⟨h.1, h.2.1⟩
  · have h := (C2_argCountValidation stLine
      ('s' :: 'e' :: 't' :: ' ' :: 'a' :: ' ' :: 'b' :: [])
      ("set".toList) ["a".toList, "b".toList] cmdSet
      rfl (by decide) (by decide)).2 (by decide) (by decide)
    rw [h]
    decide

/-- C10: processInput is a no-op when the session is not running or the
buffers are unallocated: the state is unchanged and no output event or
handler invocation is produced, so lines injected through this entry
point before start or after stop are silently discarded. -/
theorem C10_processInputNoop (s : CLIState) (line : List Char)
    (h : s.isRunning = false ∨ s.allocated = false) :
    processInput s line = (s, []) := by
  rcases h with h | h <;> simp [processInput, h]

/-- Witness for C10: a stopped session discards the line help. -/
theorem C10_processInputNoop_witness :
    processInput stStopped ('h' :: 'e' :: 'l' :: 'p' :: []) =
      (stStopped, []) :=
  C10_processInputNoop stStopped ('h' :: 'e' :: 'l' :: 'p' :: [])
    (Or.inl rfl)

/-- C8: when the session is not running or allocation failed, poll
consumes no bytes from the stream, performs no dispatch and emits no
events at all (in particular no prompt); and after stop every poll is
such a no-op until start is called again. -/
theorem C8_stoppedPollInert (s : CLIState) (input : List Char) :
    ((s.isRunning = false ∨ s.allocated = false) →
      poll s input = (s, [], input))
    ∧ poll (stop s) input = (stop s, [], input) := by
  constructor
  · intro h
    rcases h with h | h <;> simp [poll, h]
  · simp [poll, stop]

/-- Witness for C8: a stopped session leaves the three bytes abc
unread and emits nothing. -/
theorem C8_stoppedPollInert_witness :
    poll stStopped ('a' :: 'b' :: 'c' :: []) =
      (stStopped, [], 'a' :: 'b' :: 'c' :: []) :=
  (C8_stoppedPollInert stStopped ('a' :: 'b' :: 'c' :: [])).1 (Or.inl rfl)

/-- C9: a printable byte arriving when the buffer already holds
capacity - 1 characters leaves the state, hence the buffer content and
length, completely unchanged and emits exactly one bell; a printable
byte arriving while the length is below capacity - 1 is appended at the
cursor with the terminator moved up, echoed, and the length grows by
one. -/
theorem C9_overflowBell (s : CLIState) (c : Char)
    (hRun : s.isRunning = true) (hAlloc : s.allocated = true)
    (hPrint : isPrintC c = true) :
    (s.maxLineLen = s.bufferPos + 1 → poll s (c :: []) = (s, [Ev.bell], []))
    ∧ (s.bufferPos < s.maxLineLen - 1 →
      poll s (c :: []) =
        ({ s with
            storage := (s.storage.set s.bufferPos c).set (s.bufferPos + 1)
              nulChar,
            bufferPos := s.bufferPos + 1 },
         [Ev.echo c], [])) := by
  have hc : 32 ≤ c.toNat ∧ c.toNat ≤ 126 := by
    simpa [isPrintC] using hPrint
  have h13 : c.toNat ≠ 13 := by omega
  have h10 : c.toNat ≠ 10 := by omega
  have h9 : c.toNat ≠ 9 := by omega
  have h127 : c.toNat ≠ 127 := by omega
  have h8 : c.toNat ≠ 8 := by omega
  have h3 : c.toNat ≠ 3 := by omega
  have hguard : (!s.isRunning || !s.allocated) = false := by
    simp [hRun, hAlloc]
  constructor
  · intro hFull
    have hnl : ¬(s.bufferPos < s.maxLineLen - 1) := by omega
    simp [poll, hguard, pollGo, pollLoop, handlePrintable,
      h13, h10, h9, h127, h8, h3, hPrint, hnl, pollLoop_nil]
  · intro hlt
    simp [poll, hguard, pollGo, pollLoop, handlePrintable,
      h13, h10, h9, h127, h8, h3, hPrint, hlt, pollLoop_nil]

/-- Witness for C9: a buffer at 63 of 64 rejects x with one bell and is
unchanged; a buffer at 2 of 64 appends and echoes x. -/
theorem C9_overflowBell_witness :
    poll stFull ('x' :: []) = (stFull, [Ev.bell], [])
    ∧ poll stLine ('x' :: []) =
      ({ stLine with
          storage := (stLine.storage.set 2 'x').set 3 nulChar,
          bufferPos := 3 },
       [Ev.echo 'x'], []) := by
  constructor
  · exact (C9_overflowBell stFull 'x' rfl rfl (by decide)).1 (by decide)
  · exact (C9_overflowBell stLine 'x' rfl rfl (by decide)).2 (by decide)

/-- C5: after a non-empty buffered line, a CR immediately followed by
LF, or an LF immediately followed by CR, yields exactly one line
dispatch, not two: the first terminator dispatches the line, the paired
second terminator byte is consumed and discarded without an extra
dispatch, and processing continues on the remaining input from the
reset state. -/
theorem C5_crlfNormalization (s : CLIState) (c1 c2 : Char)
    (rest : List Char)
    (hRun : s.isRunning = true) (hAlloc : s.allocated = true)
    (hPos : 0 < s.bufferPos)
    (hPair : (c1.toNat = 13 ∧ c2.toNat = 10) ∨
             (c1.toNat = 10 ∧ c2.toNat = 13)) :
    countDispatch (poll s (c1 :: c2 :: rest)).2.1 =
      1 + countDispatch (pollGo (lineReset s) rest).2 := by
  have hguard : (!s.isRunning || !s.allocated) = false := by
    simp [hRun, hAlloc]
  have hterm : (decide (c1.toNat = 13) || decide (c1.toNat = 10)) = true := by
    rcases hPair with ⟨h1, _⟩ | ⟨h1, _⟩ <;> simp [h1]
  have hskip : pairSkip c1 (c2 :: rest) = rest := by
    rcases hPair with ⟨h1, h2⟩ | ⟨h1, h2⟩ <;> simp [pairSkip, h1, h2]
  have hfuel : pollLoop (rest.length + 1) (lineReset s) rest =
      pollGo (lineReset s) rest := by
    simp only [pollGo]
    exact pollLoop_fuel_irrel (rest.length + 1) rest.length (lineReset s)
      rest (Nat.le_succ rest.length) (Nat.le_refl rest.length)
  simp only [poll, hguard, Bool.false_eq_true, if_false, pollGo,
    List.length_cons, pollLoop, hterm, if_true, hskip,
    handleTerm_fst s hPos]
  rw [hfuel]
  rw [countDispatch_append, countDispatch_handleTerm s hPos]
  simp only [pollGo]

/-- Witness for C5: the buffered line hi followed by CR LF dispatches
exactly once. -/
theorem C5_crlfNormalization_witness :
    countDispatch (poll stLine ('\r' :: '\n' :: [])).2.1 = 1 := by
  have h := C5_crlfNormalization stLine '\r' '\n' [] rfl rfl (by decide)
    (Or.inl (by decide))
  rw [h]
  decide

/-- C7: the line-buffer invariant, length strictly below capacity with
the NUL terminator stored at the current length, holds after any poll
from an invariant state and is preserved by every byte-processing
operation the poll loop performs — printable append, backspace, cancel,
line termination, buffer reset and both tab-completion extension
paths — the last two also as the stand-alone operations handleTab and
resetBuffer. -/
theorem C7_bufferInvariant (s : CLIState) (input : List Char)
    (h : BufInv s) :
    BufInv (poll s input).1 ∧ BufInv (handleTab s).1 ∧
      BufInv (resetBuffer s) :=
  ⟨bufInv_poll s input h, bufInv_handleTab s h, bufInv_resetBuffer s h⟩

/-- Witness for C7: from the hi buffer state, polling the byte x
followed by a CR preserves the invariant. -/
theorem C7_bufferInvariant_witness :
    BufInv (poll stLine ('x' :: '\r' :: [])).1 :=
  (C7_bufferInvariant stLine ('x' :: '\r' :: []) (by decide)).1

/-- C4 counterexample: with the table holding only read, the buffer
rea, cursor 3 and capacity 6, the current word has the unique match
read with suffix d; the buffer has room for the suffix plus one
trailing separator (the completed content read-space plus terminator
occupies exactly the 6 bytes), yet tab completion emits a bell and
leaves the state unchanged, contrary to the claim. -/
theorem C4_counterexample :
    tabRoomSpec stTab.bufferPos 1 stTab.maxLineLen
    ∧ tabMatches stTab.commands (tabWord stTab) = ["read"]
    ∧ handleTab stTab = (stTab, [Ev.bell]) :=
  ⟨by decide, by decide, by decide⟩

/-- C4 amended: for a buffer state whose current word (no space typed
yet, word non-empty) is a prefix of exactly one command name nm, with
suffixLen = nm.length - wordLen: when bufferPos + suffixLen is strictly
below maxLineLen - 2 — one spare byte beyond the room needed for the
suffix, the trailing space and the terminator — the suffix and a single
trailing space are appended into the buffer, exactly that suffix and
space are echoed, and the cursor advances by their combined length;
otherwise, including the exact-fit boundary the original claim calls
having room, a bell is emitted and the state is left completely
unchanged. -/
theorem C4_tabCompletionSingle (s : CLIState) (nm : String)
    (hAlloc : s.allocated = true)
    (hNoSp : (tabWord s).contains ' ' = false)
    (hLen : (tabWord s).length ≠ 0)
    (hMatch : tabMatches s.commands (tabWord s) = [nm]) :
    (s.bufferPos + (nm.length - (tabWord s).length) < s.maxLineLen - 2 →
      handleTab s =
        ({ s with
            storage := ((writeChars s.storage s.bufferPos
                (nm.toList.drop (tabWord s).length)).set
              (s.bufferPos + (nm.length - (tabWord s).length)) ' ').set
              (s.bufferPos + (nm.length - (tabWord s).length) + 1) nulChar,
            bufferPos :=
              s.bufferPos + (nm.length - (tabWord s).length) + 1 },
         [Ev.print (String.mk (nm.toList.drop (tabWord s).length)),
          Ev.print " "]))
    ∧ (¬(s.bufferPos + (nm.length - (tabWord s).length) < s.maxLineLen - 2)
        → handleTab s = (s, [Ev.bell])) := by
  have hga : (!s.allocated) = false := by simp [hAlloc]
  constructor
  · intro hRoom
    simp only [handleTab, hga, Bool.false_eq_true, if_false, hNoSp,
      hLen, hMatch, if_pos hRoom]
  · intro hRoom
    simp only [handleTab, hga, Bool.false_eq_true, if_false, hNoSp,
      hLen, hMatch, if_neg hRoom]

/-- Witness for C4 amended: with capacity 8 instead, rea completes to
the buffer content read-space with cursor 5, echoing d and a space. -/
theorem C4_tabCompletionSingle_witness :
    handleTab stTabOk =
      ({ stTabOk with
          storage :=
            'r' :: 'e' :: 'a' :: 'd' :: ' ' :: nulChar :: nulChar ::
              nulChar :: [],
          bufferPos := 5 },
       [Ev.print "d", Ev.print " "]) := by
  have h := (C4_tabCompletionSingle stTabOk "read" rfl (by decide)
    (by decide) (by decide)).1 (by decide)
  rw [h]
  decide
